import Mathlib

/-!
Verification of the CHIP-8 interpreter core (`src/chip8.c`).

The machine state `vm_t` is embedded shallowly: byte/word arrays become total
functions `Nat → Nat` whose intended values fit the C integer width, machine
arithmetic wraps with explicit `% 2^w`, and the SDL-facing pieces (window,
renderer, audio device) are dropped.  `run_instruction`, `update_timers` and
the draw loops of opcode `DXYN` are translated from the source; the spec-side
sprite predicates (`spriteHits`, `spriteCollides`) restate the documented draw
algorithm and are proved to coincide with the translated loops.
-/

namespace Chip8

/-- The CHIP-8 virtual machine state, following `vm_t` in `src/chip8.c`.
Arrays are total functions; `sp` is `stack_ptr` as an index into `stack`.
The SDL handles, `state`, `rom_name` and the transient `ins` decode record
are omitted (they do not participate in instruction semantics). -/
structure Vm where
  ram : Nat → Nat
  display : Nat → Bool
  stack : Nat → Nat
  sp : Nat
  v : Nat → Nat
  i : Nat
  pc : Nat
  delay_timer : Nat
  sound_timer : Nat
  keypad : Nat → Bool
  should_redraw : Bool

/-- Decode field `nnn = opcode & 0x0FFF`. -/
def opNnn (op : Nat) : Nat := op % 4096

/-- Decode field `nn = opcode & 0x0FF`. -/
def opNn (op : Nat) : Nat := op % 256

/-- Decode field `n = opcode & 0x0F`. -/
def opN (op : Nat) : Nat := op % 16

/-- Decode field `x = (opcode >> 8) & 0x0F`. -/
def opX (op : Nat) : Nat := op / 256 % 16

/-- Decode field `y = (opcode >> 4) & 0x0F`. -/
def opY (op : Nat) : Nat := op / 16 % 16

/-- Top nibble `(opcode >> 12) & 0x0F`, the dispatch key of the switch. -/
def opHi (op : Nat) : Nat := op / 4096 % 16

/-- 8-bit wrapping subtraction, the effect of `uint8_t a -= b` in C. -/
def u8sub (a b : Nat) : Nat := (((a : Int) - (b : Int)).emod 256).toNat

/-- The key-scan loop of opcode `FX0A`: scan `keypad[start]`, `keypad[start+1]`, …
for `fuel` entries, returning the first index found pressed. -/
def firstKey (keypad : Nat → Bool) : Nat → Nat → Option Nat
  | 0, _ => none
  | fuel + 1, k => if keypad k then some k else firstKey keypad fuel (k + 1)

/-- Working state of the `DXYN` draw loops: the display, the carry flag
`v[0xF]` being accumulated, and a ghost trace of every display index the loop
reads/writes (each loop iteration reads and XOR-writes exactly one cell). -/
structure DrawSt where
  disp : Nat → Bool
  vf : Nat
  trace : List Nat

/-- One iteration of the inner `DXYN` loop body: read the pixel at
`y*64 + x`, set the carry flag if both sprite bit `j` and the pixel are on,
and XOR the sprite bit into the pixel. -/
def drawBit (data y j x : Nat) (ds : DrawSt) : DrawSt :=
  let cell := y * 64 + x
  let sbit := data.testBit j
  let p := ds.disp cell
  ⟨Function.update ds.disp cell (Bool.xor p sbit),
   if sbit && p then 1 else ds.vf,
   ds.trace ++ [cell]⟩

/-- The inner `DXYN` loop `for (int8_t j = 7; j >= 0; j--)`: draw bit `j` at
column `x`, then stop if `++x` reaches the right edge (`x + 1 ≥ 64`). -/
def drawBitsLoop (data y : Nat) : Nat → Nat → DrawSt → DrawSt
  | 0, x, ds => drawBit data y 0 x ds
  | j + 1, x, ds =>
    let ds1 := drawBit data y (j + 1) x ds
    if 64 ≤ x + 1 then ds1
    else drawBitsLoop data y j (x + 1) ds1

/-- The outer `DXYN` loop over sprite rows: `r` rows remain, the current row's
sprite byte is `ram (I + rowIdx)`, drawn at display row `y` starting from
column `x0`; stop early if `++y` reaches the bottom edge (`y + 1 ≥ 32`). -/
def drawRowsLoop (ram : Nat → Nat) (I x0 : Nat) : Nat → Nat → Nat → DrawSt → DrawSt
  | 0, _, _, ds => ds
  | r + 1, rowIdx, y, ds =>
    let ds1 := drawBitsLoop (ram (I + rowIdx)) y 7 x0 ds
    if 32 ≤ y + 1 then ds1
    else drawRowsLoop ram I x0 r (rowIdx + 1) (y + 1) ds1

/-- `update_timers` from `src/chip8.c`: decrement each timer when positive;
the returned flag is the signal to the audio device (`true` = tone audible,
i.e. `SDL_PauseAudioDevice(dev, 0)` was called). -/
def update_timers (st : Vm) : Vm × Bool :=
  let st1 := if st.delay_timer > 0 then { st with delay_timer := st.delay_timer - 1 } else st
  if st1.sound_timer > 0 then ({ st1 with sound_timer := st1.sound_timer - 1 }, true)
  else (st1, false)

/-- One timer tick, dropping the audio signal. -/
def timerTick (st : Vm) : Vm := (update_timers st).1

/-- `k` successive timer ticks. -/
def timerTicks : Nat → Vm → Vm
  | 0, st => st
  | k + 1, st => timerTicks k (timerTick st)

/-- The `case 0x0` arm of the dispatch: `00E0` clear, `00EE` return, and the
`0NNN` legacy machine-call treated as a jump. -/
def exec0 (op : Nat) (st : Vm) : Vm :=
  if opNn op = 0xE0 then
    -- 00E0: clear the screen (memset over the 2048 display cells)
    { st with display := fun idx => if idx < 2048 then false else st.display idx,
              should_redraw := true }
  else if opNn op = 0xEE then
    -- 00EE: return from subroutine: vm->pc = *(--vm->stack_ptr)
    { st with pc := st.stack (st.sp - 1), sp := st.sp - 1 }
  else
    -- 0NNN: machine code routine, treated as a jump
    { st with pc := opNnn op }

/-- The `case 0x8` arm of the dispatch: register-to-register moves,
bitwise ops, add/sub with carry/borrow flag, and the two shifts. -/
def exec8 (op : Nat) (st : Vm) : Vm :=
  if opN op = 0 then
    { st with v := Function.update st.v (opX op) (st.v (opY op)) }
  else if opN op = 1 then
    { st with v := Function.update st.v (opX op) (st.v (opX op) ||| st.v (opY op)) }
  else if opN op = 2 then
    { st with v := Function.update st.v (opX op) (st.v (opX op) &&& st.v (opY op)) }
  else if opN op = 3 then
    { st with v := Function.update st.v (opX op) (st.v (opX op) ^^^ st.v (opY op)) }
  else if opN op = 4 then
    -- ogx = v[x]; v[x] += v[y]; v[0xF] = ogx > v[x]
    let ogx := st.v (opX op)
    let v1 := Function.update st.v (opX op) ((st.v (opX op) + st.v (opY op)) % 256)
    { st with v := Function.update v1 15 (if ogx > v1 (opX op) then 1 else 0) }
  else if opN op = 5 then
    -- carry = v[x] > v[y]; v[x] -= v[y]; v[0xF] = carry
    let carry : Nat := if st.v (opX op) > st.v (opY op) then 1 else 0
    let v1 := Function.update st.v (opX op) (u8sub (st.v (opX op)) (st.v (opY op)))
    { st with v := Function.update v1 15 carry }
  else if opN op = 6 then
    -- carry = v[x] & 1; v[x] >>= 1; v[0xF] = carry
    let carry : Nat := st.v (opX op) % 2
    let v1 := Function.update st.v (opX op) (st.v (opX op) / 2)
    { st with v := Function.update v1 15 carry }
  else if opN op = 7 then
    -- carry = v[y] > v[x]; v[x] = v[y] - v[x]; v[0xF] = carry
    let carry : Nat := if st.v (opY op) > st.v (opX op) then 1 else 0
    let v1 := Function.update st.v (opX op) (u8sub (st.v (opY op)) (st.v (opX op)))
    { st with v := Function.update v1 15 carry }
  else if opN op = 14 then
    -- carry = (v[x] & 0x80) >> 7; v[x] <<= 1; v[0xF] = carry
    let carry : Nat := st.v (opX op) / 128 % 2
    let v1 := Function.update st.v (opX op) (st.v (opX op) * 2 % 256)
    { st with v := Function.update v1 15 carry }
  else st

/-- The `case 0xD` arm of the dispatch: the `DXYN` sprite draw.  The origin
wraps mod 64/32, then the row/bit loops clip at the screen edges. -/
def execD (op : Nat) (st : Vm) : Vm :=
  let x0 := st.v (opX op) % 64
  let y0 := st.v (opY op) % 32
  let res := drawRowsLoop st.ram st.i x0 (opN op) 0 y0 ⟨st.display, 0, []⟩
  { st with display := res.disp, v := Function.update st.v 15 res.vf,
            should_redraw := true }

/-- The `case 0xE` arm of the dispatch: skip on key pressed / not pressed. -/
def execE (op : Nat) (st : Vm) : Vm :=
  if opNn op = 0x9E then
    if st.keypad (st.v (opX op)) then { st with pc := (st.pc + 2) % 65536 } else st
  else if opNn op = 0xA1 then
    if ¬ st.keypad (st.v (opX op)) then { st with pc := (st.pc + 2) % 65536 } else st
  else st

/-- The `case 0xF` arm of the dispatch: timers, key wait, `I` arithmetic,
font address, BCD, and the register block store/load. -/
def execF (op : Nat) (st : Vm) : Vm :=
  if opNn op = 0x07 then
    { st with v := Function.update st.v (opX op) st.delay_timer }
  else if opNn op = 0x0A then
    match firstKey st.keypad 16 0 with
    | some k => { st with v := Function.update st.v (opX op) k }
    | none => { st with pc := (st.pc + 65534) % 65536 }
  else if opNn op = 0x15 then
    { st with delay_timer := st.v (opX op) }
  else if opNn op = 0x18 then
    { st with sound_timer := st.v (opX op) }
  else if opNn op = 0x1E then
    { st with i := (st.i + st.v (opX op)) % 65536 }
  else if opNn op = 0x29 then
    -- FX29: vm->i = vm->v[x] * 5 (no masking of v[x] in the source)
    { st with i := st.v (opX op) * 5 % 65536 }
  else if opNn op = 0x33 then
    let r1 := Function.update st.ram st.i (st.v (opX op) / 100)
    let r2 := Function.update r1 (st.i + 1) (st.v (opX op) % 100 / 10)
    let r3 := Function.update r2 (st.i + 2) (st.v (opX op) % 10)
    { st with ram := r3 }
  else if opNn op = 0x55 then
    let ram1 := (List.range (opX op + 1)).foldl (fun r k => Function.update r (st.i + k) (st.v k)) st.ram
    { st with ram := ram1 }
  else if opNn op = 0x65 then
    let v1 := (List.range (opX op + 1)).foldl (fun w k => Function.update w k (st.ram (st.i + k))) st.v
    { st with v := v1 }
  else st

/-- The dispatch switch of `run_instruction`, applied to the post-fetch state
(`pc` already advanced by 2).  `rnd` stands for the `rand()` call consumed by
opcode `CXNN`; the larger switch arms are split out as `exec0`, `exec8`,
`execD`, `execE`, `execF`. -/
def exec (rnd : Nat) (op : Nat) (st : Vm) : Vm :=
  if opHi op = 0 then exec0 op st
  else if opHi op = 1 then
    { st with pc := opNnn op }
  else if opHi op = 2 then
    -- 2NNN: *vm->stack_ptr++ = vm->pc; vm->pc = nnn
    { st with stack := Function.update st.stack st.sp st.pc, sp := st.sp + 1,
              pc := opNnn op }
  else if opHi op = 3 then
    if st.v (opX op) = opNn op then { st with pc := (st.pc + 2) % 65536 } else st
  else if opHi op = 4 then
    if st.v (opX op) ≠ opNn op then { st with pc := (st.pc + 2) % 65536 } else st
  else if opHi op = 5 then
    if st.v (opX op) = st.v (opY op) then { st with pc := (st.pc + 2) % 65536 } else st
  else if opHi op = 6 then
    { st with v := Function.update st.v (opX op) (opNn op) }
  else if opHi op = 7 then
    { st with v := Function.update st.v (opX op) ((st.v (opX op) + opNn op) % 256) }
  else if opHi op = 8 then exec8 op st
  else if opHi op = 9 then
    if st.v (opX op) ≠ st.v (opY op) then { st with pc := (st.pc + 2) % 65536 } else st
  else if opHi op = 10 then
    { st with i := opNnn op }
  else if opHi op = 11 then
    { st with pc := (opNnn op + st.v 0) % 65536 }
  else if opHi op = 12 then
    { st with v := Function.update st.v (opX op) (rnd &&& opNn op &&& 255) }
  else if opHi op = 13 then execD op st
  else if opHi op = 14 then execE op st
  else if opHi op = 15 then execF op st
  else st

/-- `run_instruction` from `src/chip8.c`: fetch the big-endian opcode at `pc`,
advance `pc` by 2 (wrapping at 16 bits), then dispatch. -/
def run_instruction (rnd : Nat) (st : Vm) : Vm :=
  let opcode := st.ram st.pc * 256 + st.ram (st.pc + 1)
  exec rnd opcode { st with pc := (st.pc + 2) % 65536 }

/-- The all-zero machine (registers, memory, display cleared), program counter
at the ROM entry point, as produced by `init_vm` before the font/ROM load. -/
def zeroVm : Vm :=
  { ram := fun _ => 0
    display := fun _ => false
    stack := fun _ => 0
    sp := 0
    v := fun _ => 0
    i := 0
    pc := 0x200
    delay_timer := 0
    sound_timer := 0
    keypad := fun _ => false
    should_redraw := false }

/-- A machine about to execute `F029` with `V0 = 0x10`, a value above `0xF`. -/
def cexFx29 : Vm :=
  { zeroVm with
      ram := fun a => if a = 0x200 then 0xF0 else if a = 0x201 then 0x29 else 0
      v := fun k => if k = 0 then 0x10 else 0 }

/-- A machine about to execute opcode `5011` (a `5XYN` with low nibble 1)
with `V0 = V1 = 0`. -/
def cex5xy1 : Vm :=
  { zeroVm with ram := fun a => if a = 0x200 then 0x50 else if a = 0x201 then 0x11 else 0 }

/-- A machine about to execute `7F01` (add 1 to `VF`) with `VF = 0`. -/
def cexAdd7F : Vm :=
  { zeroVm with ram := fun a => if a = 0x200 then 0x7F else if a = 0x201 then 0x01 else 0 }

/-- A machine with `delay_timer = 3` and `sound_timer = 0`. -/
def tickVm : Vm := { zeroVm with delay_timer := 3 }

/-- A machine with `VF = 200` and `V1 = 100`, about to add them via `8F14`. -/
def cexFlag : Vm := { zeroVm with v := fun k => if k = 15 then 200 else if k = 1 then 100 else 0 }

/-- A machine about to execute `F10A` with no key pressed. -/
def waitVmNoKey : Vm :=
  { zeroVm with ram := fun a => if a = 0x200 then 0xF1 else if a = 0x201 then 0x0A else 0 }

/-- The same machine with exactly key 7 pressed. -/
def waitVmKey7 : Vm := { waitVmNoKey with keypad := fun k => k == 7 }

/-- A machine with keys 5 and 9 pressed. -/
def cexKeys : Vm := { zeroVm with keypad := fun k => k == 5 || k == 9 }

/-- A machine about to call subroutine `0x300` which immediately returns. -/
def callVm : Vm :=
  { zeroVm with ram := fun a =>
      if a = 0x200 then 0x23 else if a = 0x301 then 0xEE else 0 }

/-- A machine whose `ram[0]` is `0xF0` (the top row of glyph 0) with `I = 0`,
all registers zero. -/
def drawVm : Vm := { zeroVm with ram := fun a => if a = 0 then 0xF0 else 0 }

/-- Like `drawVm` but with `V0 = 63`, so a `D011` draw starts at the last
column and the bit loop clips after a single cell. -/
def edgeVm : Vm :=
  { zeroVm with ram := fun a => if a = 0 then 0xF0 else 0
                v := fun k => if k = 0 then 63 else 0 }

/-- Spec-side row coverage: drawing sprite byte `data` at display row `y`
starting from column `x` with remaining bits `j` down to 0 (MSB first, so bit
`j - t` lands on column `x + t`), does the sprite set a bit at display index
`idx`?  Columns beyond 63 are clipped. -/
def rowHits (data y x j idx : Nat) : Bool :=
  (List.range (j + 1)).any fun t =>
    decide (x + t < 64) && (idx == y * 64 + (x + t)) && data.testBit (j - t)

/-- Spec-side row collision: some drawn sprite bit of the row lands on a
display cell that is already set in `disp`. -/
def rowCollides (data y x j : Nat) (disp : Nat → Bool) : Bool :=
  (List.range (j + 1)).any fun t =>
    decide (x + t < 64) && data.testBit (j - t) && disp (y * 64 + (x + t))

/-- Spec-side sprite coverage from an intermediate loop position: `r` rows
remain, reading sprite bytes `ram (I + rowIdx)`, `ram (I + rowIdx + 1)`, …,
drawn at display rows `y`, `y + 1`, …; rows at or beyond 32 are clipped. -/
def spriteHitsFrom (ram : Nat → Nat) (I x0 r rowIdx y idx : Nat) : Bool :=
  (List.range r).any fun t =>
    decide (y + t < 32) && rowHits (ram (I + (rowIdx + t))) (y + t) x0 7 idx

/-- Spec-side sprite collision from an intermediate loop position. -/
def spriteCollidesFrom (ram : Nat → Nat) (I x0 r rowIdx y : Nat) (disp : Nat → Bool) : Bool :=
  (List.range r).any fun t =>
    decide (y + t < 32) && rowCollides (ram (I + (rowIdx + t))) (y + t) x0 7 disp

/-- Spec-side sprite coverage of a whole `DXYN` draw, per the documented
algorithm: for row `r ∈ [0, n)` the byte `ram (I + r)` is XORed MSB-first
into display row `y0 + r` starting at column `x0`, clipping columns past 63
and rows past 31. -/
def spriteHits (ram : Nat → Nat) (I x0 y0 n idx : Nat) : Bool :=
  (List.range n).any fun r =>
    decide (y0 + r < 32) && rowHits (ram (I + r)) (y0 + r) x0 7 idx

/-- Spec-side collision of a whole `DXYN` draw against the pre-draw display:
some drawn sprite bit lands on an already-set pixel. -/
def spriteCollides (ram : Nat → Nat) (I x0 y0 n : Nat) (disp : Nat → Bool) : Bool :=
  (List.range n).any fun r =>
    decide (y0 + r < 32) && rowCollides (ram (I + r)) (y0 + r) x0 7 disp

theorem exec_hiF (rnd : Nat) (op : Nat) (st : Vm) (h : opHi op = 15) :
    exec rnd op st = execF op st := by
  simp [exec, h]

theorem exec_hiD (rnd : Nat) (op : Nat) (st : Vm) (h : opHi op = 13) :
    exec rnd op st = execD op st := by
  simp [exec, h]

theorem exec_hi2 (rnd : Nat) (op : Nat) (st : Vm) (h : opHi op = 2) :
    exec rnd op st
      = { st with stack := Function.update st.stack st.sp st.pc,
                  sp := st.sp + 1, pc := opNnn op } := by
  simp [exec, h]

theorem exec_00EE (rnd : Nat) (op : Nat) (st : Vm) (h0 : opHi op = 0)
    (hE : opNn op = 0xEE) :
    exec rnd op st = { st with pc := st.stack (st.sp - 1), sp := st.sp - 1 } := by
  simp [exec, exec0, h0, hE]

theorem execF_0A_none (op : Nat) (st : Vm) (h : opNn op = 0x0A)
    (hk : firstKey st.keypad 16 0 = none) :
    execF op st = { st with pc := (st.pc + 65534) % 65536 } := by
  simp [execF, h, hk]

theorem execF_0A_some (op : Nat) (st : Vm) (k : Nat) (h : opNn op = 0x0A)
    (hk : firstKey st.keypad 16 0 = some k) :
    execF op st = { st with v := Function.update st.v (opX op) k } := by
  simp [execF, h, hk]

theorem exec_hi7 (rnd : Nat) (op : Nat) (st : Vm) (h : opHi op = 7) :
    exec rnd op st
      = { st with v := Function.update st.v (opX op) ((st.v (opX op) + opNn op) % 256) } := by
  simp [exec, h]

theorem exec_hi8 (rnd : Nat) (op : Nat) (st : Vm) (h : opHi op = 8) :
    exec rnd op st = exec8 op st := by
  simp [exec, h]

theorem exec_hiE (rnd : Nat) (op : Nat) (st : Vm) (h : opHi op = 14) :
    exec rnd op st = execE op st := by
  simp [exec, h]

theorem execF_29 (op : Nat) (st : Vm) (h : opNn op = 0x29) :
    execF op st = { st with i := st.v (opX op) * 5 % 65536 } := by
  simp [execF, h]

/-- C1 counterexample: with `V0 = 0x10`, opcode `F029` does not set
`I = (V0 & 0xF) * 5 = 0`; the source computes `I = V0 * 5 = 80` without
masking the register value. -/
theorem fx29_mask_cex :
    ¬ (run_instruction 0 cexFx29).i = cexFx29.v 0 % 16 * 5 := by decide

/-- C1 (amended): `FX29` sets `I` to `V[x] * 5` with no `& 0xF` masking;
this agrees with the glyph address `(V[x] & 0xF) * 5` only when
`V[x] ≤ 0xF`. -/
theorem fx29_sets_font_address (rnd : Nat) (st : Vm) (op : Nat)
    (hhi : opHi op = 15) (hnn : opNn op = 0x29) (hv : st.v (opX op) < 256) :
    (exec rnd op st).i = st.v (opX op) * 5 := by
  rw [exec_hiF rnd _ _ hhi, execF_29 _ _ hnn]
  show st.v (opX op) * 5 % 65536 = st.v (opX op) * 5
  exact Nat.mod_eq_of_lt
    (Nat.lt_of_lt_of_le (mul_lt_mul_of_pos_right hv (by decide)) (by decide))

theorem fx29_sets_font_address_witness :
    (exec 0 0xF129 zeroVm).i = zeroVm.v (opX 0xF129) * 5 :=
  fx29_sets_font_address 0 zeroVm 0xF129 rfl rfl (by decide)

/-- C2 counterexample: opcode `5011` has low nibble `n = 1 ≠ 0`, yet it is not
a no-op: the source ignores `n` in the `0x5` case, so with `V0 = V1` the
program counter is advanced by an extra 2 beyond the fetch. -/
theorem opcode_5xy1_not_noop_cex :
    ¬ (run_instruction 0 cex5xy1).pc = (cex5xy1.pc + 2) % 65536 := by decide

/-- C2 (amended): opcodes that fall to a `default` branch of the dispatch —
`8XYN` with `n ∉ {0..7, E}`, `EXNN` with `nn ∉ {9E, A1}`, and `FXNN` with
`nn` outside the implemented set — are no-ops for that cycle after the
fetch's `+2` advance.  (`5XYN` and `9XYN` are not in this family: their low
nibble is ignored and they behave as `5XY0`/`9XY0`.) -/
theorem default_opcode_noop (rnd : Nat) (st : Vm) (op : Nat)
    (h : (opHi op = 8 ∧ 8 ≤ opN op ∧ opN op ≠ 14)
       ∨ (opHi op = 14 ∧ opNn op ≠ 0x9E ∧ opNn op ≠ 0xA1)
       ∨ (opHi op = 15 ∧ opNn op ∉ ([0x07, 0x0A, 0x15, 0x18, 0x1E, 0x29, 0x33, 0x55, 0x65] : List Nat))) :
    exec rnd op st = st := by
  rcases h with ⟨h8, hn1, hn2⟩ | ⟨hE, h1, h2⟩ | ⟨hF, hmem⟩
  · have e0 : opN op ≠ 0 := Nat.ne_of_gt (Nat.lt_of_lt_of_le (by decide) hn1)
    have e1 : opN op ≠ 1 := Nat.ne_of_gt (Nat.lt_of_lt_of_le (by decide) hn1)
    have e2 : opN op ≠ 2 := Nat.ne_of_gt (Nat.lt_of_lt_of_le (by decide) hn1)
    have e3 : opN op ≠ 3 := Nat.ne_of_gt (Nat.lt_of_lt_of_le (by decide) hn1)
    have e4 : opN op ≠ 4 := Nat.ne_of_gt (Nat.lt_of_lt_of_le (by decide) hn1)
    have e5 : opN op ≠ 5 := Nat.ne_of_gt (Nat.lt_of_lt_of_le (by decide) hn1)
    have e6 : opN op ≠ 6 := Nat.ne_of_gt (Nat.lt_of_lt_of_le (by decide) hn1)
    have e7 : opN op ≠ 7 := Nat.ne_of_gt (Nat.lt_of_lt_of_le (by decide) hn1)
    rw [exec_hi8 rnd _ _ h8]
    simp [exec8, e0, e1, e2, e3, e4, e5, e6, e7, hn2]
  · rw [exec_hiE rnd _ _ hE]
    simp [execE, h1, h2]
  · simp only [List.mem_cons, List.not_mem_nil, or_false] at hmem
    push_neg at hmem
    obtain ⟨m1, m2, m3, m4, m5, m6, m7, m8, m9⟩ := hmem
    rw [exec_hiF rnd _ _ hF]
    simp [execF, m1, m2, m3, m4, m5, m6, m7, m8, m9]

theorem default_opcode_noop_witness : exec 0 0x800F zeroVm = zeroVm :=
  default_opcode_noop 0 zeroVm 0x800F (by decide)

/-- C4 counterexample: `7XNN` with `x = 0xF` does change `VF`: executing
`7F01` with `VF = 0` leaves `VF = 1`, because the destination register is
`VF` itself. -/
theorem add_imm_vf_changed_cex :
    ¬ (run_instruction 0 cexAdd7F).v 15 = cexAdd7F.v 15 := by decide

/-- C4 (amended): `7XNN` sets `V[x]` to `(V[x] + nn) mod 256` and writes no
other register; in particular `VF` is unchanged whenever `x ≠ 0xF`, but for
`x = 0xF` the wrapped sum is written into `VF` itself (there is no separate
flag write). -/
theorem add_imm_spec (rnd : Nat) (st : Vm) (op : Nat) (hhi : opHi op = 7) :
    (exec rnd op st).v (opX op) = (st.v (opX op) + opNn op) % 256
    ∧ ∀ k, k ≠ opX op → (exec rnd op st).v k = st.v k := by
  refine ⟨?_, fun k hk => ?_⟩
  · rw [exec_hi7 rnd _ _ hhi]
    simp
  · rw [exec_hi7 rnd _ _ hhi]
    simp [Function.update_noteq hk]

theorem add_imm_spec_witness :
    (exec 0 0x7005 zeroVm).v (opX 0x7005) = (zeroVm.v (opX 0x7005) + opNn 0x7005) % 256
    ∧ (exec 0 0x7005 zeroVm).v 15 = zeroVm.v 15 :=
  ⟨(add_imm_spec 0 zeroVm 0x7005 rfl).1, (add_imm_spec 0 zeroVm 0x7005 rfl).2 15 (by decide)⟩

theorem timerTicks_add (k m : Nat) (st : Vm) :
    timerTicks (k + m) st = timerTicks m (timerTicks k st) := by
  induction k generalizing st with
  | zero => simp [timerTicks]
  | succ k ih =>
    have : k + 1 + m = (k + m) + 1 := Nat.succ_add k m
    rw [this]
    simp only [timerTicks]
    exact ih (timerTick st)

theorem timerTick_delay (st : Vm) : (timerTick st).delay_timer = st.delay_timer - 1 := by
  unfold timerTick update_timers
  by_cases hd : st.delay_timer > 0 <;> by_cases hs : st.sound_timer > 0 <;>
    simp [hd, hs] <;> omega

theorem timerTick_sound (st : Vm) : (timerTick st).sound_timer = st.sound_timer - 1 := by
  unfold timerTick update_timers
  by_cases hd : st.delay_timer > 0 <;> by_cases hs : st.sound_timer > 0 <;>
    simp [hd, hs] <;> omega

theorem timerTicks_delay_zero (m : Nat) :
    ∀ st : Vm, st.delay_timer = 0 → (timerTicks m st).delay_timer = 0 := by
  induction m with
  | zero => intro st h; exact h
  | succ m ih =>
    intro st h
    simp only [timerTicks]
    exact ih _ (by rw [timerTick_delay, h])

theorem timerTicks_sound_zero (m : Nat) :
    ∀ st : Vm, st.sound_timer = 0 → (timerTicks m st).sound_timer = 0 := by
  induction m with
  | zero => intro st h; exact h
  | succ m ih =>
    intro st h
    simp only [timerTicks]
    exact ih _ (by rw [timerTick_sound, h])

/-- C6: one timer tick decrements `delay_timer` by 1 when positive and leaves
it at 0 otherwise (`Nat` truncated subtraction states both at once), likewise
for `sound_timer`; the audio signal is "tone audible" exactly when
`sound_timer` was positive before the tick; and in any sequence of ticks a
timer that has reached 0 stays 0. -/
theorem timers_spec (st : Vm) (k m : Nat) :
    (update_timers st).1.delay_timer = st.delay_timer - 1
    ∧ (update_timers st).1.sound_timer = st.sound_timer - 1
    ∧ ((update_timers st).2 = true ↔ 0 < st.sound_timer)
    ∧ ((timerTicks k st).delay_timer = 0 → (timerTicks (k + m) st).delay_timer = 0)
    ∧ ((timerTicks k st).sound_timer = 0 → (timerTicks (k + m) st).sound_timer = 0) := by
  refine ⟨timerTick_delay st, timerTick_sound st, ?_, ?_, ?_⟩
  · unfold update_timers
    by_cases hd : st.delay_timer > 0 <;> by_cases hs : st.sound_timer > 0 <;>
      simp [hd, hs]
  · intro h
    rw [timerTicks_add]
    exact timerTicks_delay_zero m _ h
  · intro h
    rw [timerTicks_add]
    exact timerTicks_sound_zero m _ h

theorem timers_spec_witness :
    (update_timers tickVm).1.delay_timer = tickVm.delay_timer - 1
    ∧ (timerTicks (2 + 4) tickVm).sound_timer = 0 :=
  ⟨(timers_spec tickVm 0 0).1, (timers_spec tickVm 2 4).2.2.2.2 (by decide)⟩

/-- C9: for the arithmetic/shift opcodes `8XY4/5/6/7/E` with `x = 0xF`, the
flag write to `VF` happens after the arithmetic write to `V[x] = VF`, so the
final value of `VF` is the carry/borrow/shifted-out-bit flag and the
arithmetic result is lost. -/
theorem flag_overwrites_result (rnd : Nat) (st : Vm) (op : Nat)
    (hhi : opHi op = 8) (hx : opX op = 15) :
    (opN op = 4 → (exec rnd op st).v 15 = if st.v 15 > (st.v 15 + st.v (opY op)) % 256 then 1 else 0)
    ∧ (opN op = 5 → (exec rnd op st).v 15 = if st.v 15 > st.v (opY op) then 1 else 0)
    ∧ (opN op = 6 → (exec rnd op st).v 15 = st.v 15 % 2)
    ∧ (opN op = 7 → (exec rnd op st).v 15 = if st.v (opY op) > st.v 15 then 1 else 0)
    ∧ (opN op = 14 → (exec rnd op st).v 15 = st.v 15 / 128 % 2) := by
  refine ⟨?_, ?_, ?_, ?_, ?_⟩ <;> intro hn <;> rw [exec_hi8 rnd _ _ hhi] <;> simp [exec8, hx, hn]

theorem flag_overwrites_result_witness :
    (exec 0 0x8F14 cexFlag).v 15
      = if cexFlag.v 15 > (cexFlag.v 15 + cexFlag.v (opY 0x8F14)) % 256 then 1 else 0 :=
  (flag_overwrites_result 0 cexFlag 0x8F14 rfl rfl).1 rfl

theorem firstKey_none (keypad : Nat → Bool) :
    ∀ (fuel start : Nat), (∀ k, start ≤ k → k < start + fuel → keypad k = false) →
      firstKey keypad fuel start = none := by
  intro fuel
  induction fuel with
  | zero => intro start _; rfl
  | succ f ih =>
    intro start h
    have h0 : keypad start = false := h start (Nat.le_refl _) (by omega)
    simp only [firstKey, h0, Bool.false_eq_true, if_false]
    exact ih (start + 1) fun k hk1 hk2 => h k (by omega) (by omega)

theorem firstKey_eq_some (keypad : Nat → Bool) :
    ∀ (fuel start k : Nat), start ≤ k → k < start + fuel → keypad k = true →
      (∀ j, start ≤ j → j < k → keypad j = false) →
      firstKey keypad fuel start = some k := by
  intro fuel
  induction fuel with
  | zero => intro start k h1 h2 _ _; omega
  | succ f ih =>
    intro start k h1 h2 hk hmin
    rcases Nat.eq_or_lt_of_le h1 with he | hlt
    · subst he
      simp [firstKey, hk]
    · have h0 : keypad start = false := hmin start (Nat.le_refl _) hlt
      simp only [firstKey, h0, Bool.false_eq_true, if_false]
      exact ih (start + 1) k (by omega) (by omega) hk fun j hj1 hj2 => hmin j (by omega) hj2

/-- C5: executing `FX0A` (here fetched from `ram[pc] = 0xF0 + x`,
`ram[pc+1] = 0x0A`) with no key pressed returns the machine to exactly its
pre-fetch state — the `-2` undoes the fetch's `+2`, and nothing else changes;
with exactly one key `k` pressed it stores `k` in `V[x]` and keeps the normal
`+2` advance. -/
theorem fx0a_spec (rnd : Nat) (st : Vm) (op : Nat)
    (hpc : st.pc < 65536)
    (hfetch : st.ram st.pc * 256 + st.ram (st.pc + 1) = op)
    (hhi : opHi op = 15) (hnn : opNn op = 0x0A) :
    ((∀ k, k < 16 → st.keypad k = false) → run_instruction rnd st = st)
    ∧ (∀ k, k < 16 → st.keypad k = true → (∀ j, j < 16 → j ≠ k → st.keypad j = false) →
        run_instruction rnd st
          = { st with pc := (st.pc + 2) % 65536,
                      v := Function.update st.v (opX op) k }) := by
  constructor
  · intro hnone
    have hfk : firstKey st.keypad 16 0 = none :=
      firstKey_none st.keypad 16 0 fun k _ hk2 => hnone k (by omega)
    simp only [run_instruction, hfetch]
    rw [exec_hiF rnd _ _ hhi,
        execF_0A_none _ { st with pc := (st.pc + 2) % 65536 } hnn hfk]
    have hwrap : (st.pc + 2 + 65534) % 65536 = st.pc := by
      have h1 : st.pc + 2 + 65534 = st.pc + 65536 := by omega
      rw [h1, Nat.add_mod_right]
      exact Nat.mod_eq_of_lt hpc
    simp [hwrap]
  · intro k hk hkp hothers
    have hfk : firstKey st.keypad 16 0 = some k :=
      firstKey_eq_some st.keypad 16 0 k (Nat.zero_le _) (by omega) hkp
        fun j _ hj2 => hothers j (by omega) (by omega)
    simp only [run_instruction, hfetch]
    rw [exec_hiF rnd _ _ hhi,
        execF_0A_some _ { st with pc := (st.pc + 2) % 65536 } k hnn hfk]

theorem fx0a_spec_witness :
    run_instruction 0 waitVmNoKey = waitVmNoKey
    ∧ run_instruction 0 waitVmKey7
        = { waitVmKey7 with pc := (waitVmKey7.pc + 2) % 65536,
                            v := Function.update waitVmKey7.v (opX 0xF10A) 7 } :=
  ⟨(fx0a_spec 0 waitVmNoKey 0xF10A (by decide) (by decide) rfl rfl).1 (by decide),
   (fx0a_spec 0 waitVmKey7 0xF10A (by decide) (by decide) rfl rfl).2 7
     (by decide) (by decide) (by decide)⟩

/-- C10: when several keys are pressed, `FX0A` stores the smallest pressed
key index: the scan loop runs from index 0 upward and takes the first hit. -/
theorem fx0a_min_key (rnd : Nat) (st : Vm) (op : Nat)
    (hhi : opHi op = 15) (hnn : opNn op = 0x0A)
    (k : Nat) (hk : k < 16) (hkp : st.keypad k = true)
    (hmin : ∀ j, j < k → st.keypad j = false)
    (hmulti : ∃ j, j < 16 ∧ j ≠ k ∧ st.keypad j = true) :
    (exec rnd op st).v (opX op) = k := by
  have hfk : firstKey st.keypad 16 0 = some k :=
    firstKey_eq_some st.keypad 16 0 k (Nat.zero_le _) (by omega) hkp
      fun j _ hj2 => hmin j hj2
  rw [exec_hiF rnd _ _ hhi, execF_0A_some _ _ k hnn hfk]
  simp

theorem fx0a_min_key_witness : (exec 0 0xF20A cexKeys).v (opX 0xF20A) = 5 :=
  fx0a_min_key 0 cexKeys 0xF20A rfl rfl 5 (by decide) (by decide) (by decide)
    ⟨9, by decide⟩

/-- C7: a `2NNN` call fetched from address `pc` (with a free stack slot)
pushes the post-fetch counter `pc + 2` and jumps to `nnn`; the `00EE` at
`nnn` then restores the program counter to `pc + 2` and the stack pointer to
its pre-call depth. -/
theorem call_ret_spec (rnd₁ rnd₂ : Nat) (st : Vm) (op nnn : Nat)
    (_hsp : st.sp < 12) (hpc : st.pc + 2 < 65536)
    (hfetch : st.ram st.pc * 256 + st.ram (st.pc + 1) = op)
    (hhi : opHi op = 2) (hnnn : opNnn op = nnn)
    (hr1 : st.ram nnn = 0) (hr2 : st.ram (nnn + 1) = 0xEE) :
    (run_instruction rnd₁ st).pc = nnn
    ∧ (run_instruction rnd₁ st).sp = st.sp + 1
    ∧ (run_instruction rnd₁ st).stack st.sp = st.pc + 2
    ∧ (run_instruction rnd₂ (run_instruction rnd₁ st)).pc = st.pc + 2
    ∧ (run_instruction rnd₂ (run_instruction rnd₁ st)).sp = st.sp := by
  have hm : (st.pc + 2) % 65536 = st.pc + 2 := Nat.mod_eq_of_lt hpc
  have e1 : run_instruction rnd₁ st
      = { st with stack := Function.update st.stack st.sp (st.pc + 2),
                  sp := st.sp + 1, pc := nnn } := by
    simp only [run_instruction, hfetch]
    rw [exec_hi2 rnd₁ _ _ hhi, hnnn]
    simp [hm]
  have e2 : run_instruction rnd₂ (run_instruction rnd₁ st)
      = { st with stack := Function.update st.stack st.sp (st.pc + 2),
                  sp := st.sp, pc := st.pc + 2 } := by
    rw [e1]
    simp only [run_instruction]
    simp only [hr1, hr2]
    rw [exec_00EE rnd₂ (0 * 256 + 0xEE) _ (by norm_num [opHi]) (by norm_num [opNn])]
    simp [Function.update_same]
  refine ⟨?_, ?_, ?_, ?_, ?_⟩
  · rw [e1]
  · rw [e1]
  · rw [e1]; simp [Function.update_same]
  · rw [e2]
  · rw [e2]

theorem call_ret_spec_witness :
    (run_instruction 0 callVm).pc = 0x300
    ∧ (run_instruction 0 callVm).sp = callVm.sp + 1
    ∧ (run_instruction 0 callVm).stack callVm.sp = callVm.pc + 2
    ∧ (run_instruction 0 (run_instruction 0 callVm)).pc = callVm.pc + 2
    ∧ (run_instruction 0 (run_instruction 0 callVm)).sp = callVm.sp :=
  call_ret_spec 0 0 callVm 0x2300 0x300 (by decide) (by decide) (by decide)
    rfl rfl (by decide) (by decide)

theorem bool_eq_of_iff {a b : Bool} (h : a = true ↔ b = true) : a = b := by
  cases a <;> cases b <;> simp_all

theorem xor_xor_or {a b c : Bool} (h : ¬ (b = true ∧ c = true)) :
    Bool.xor (Bool.xor a b) c = Bool.xor a (b || c) := by
  cases a <;> cases b <;> cases c <;> simp_all

theorem ite_one_collapse {c1 c2 : Bool} {v : Nat} :
    (if c2 then 1 else if c1 then 1 else v) = if c1 || c2 then 1 else v := by
  cases c1 <;> cases c2 <;> simp

theorem add_rot (a s : Nat) : a + 1 + s = a + (s + 1) := by
  rw [Nat.add_assoc, Nat.add_comm 1 s]

theorem cell_lt_2048 {y x : Nat} (hy : y < 32) (hx : x < 64) : y * 64 + x < 2048 := by
  calc y * 64 + x < y * 64 + 64 := Nat.add_lt_add_left hx _
    _ = (y + 1) * 64 := (Nat.succ_mul y 64).symm
    _ ≤ 32 * 64 := Nat.mul_le_mul_right 64 hy
    _ = 2048 := by norm_num

theorem cell_row_lt {y y2 c : Nat} (hc : c < 64) (h : y < y2) : y * 64 + c < y2 * 64 := by
  calc y * 64 + c < y * 64 + 64 := Nat.add_lt_add_left hc _
    _ = (y + 1) * 64 := (Nat.succ_mul y 64).symm
    _ ≤ y2 * 64 := Nat.mul_le_mul_right 64 h

theorem cell_row_ne {y y2 c c2 : Nat} (hc : c < 64) (hc2 : c2 < 64) (hne : y2 ≠ y) :
    y2 * 64 + c ≠ y * 64 + c2 := by
  rcases Nat.lt_or_ge y2 y with hl | hg
  · exact Nat.ne_of_lt (Nat.lt_of_lt_of_le (cell_row_lt hc hl) (Nat.le_add_right _ _))
  · have hgt : y < y2 := Nat.lt_of_le_of_ne hg fun e => hne e.symm
    exact (Nat.ne_of_lt (Nat.lt_of_lt_of_le (cell_row_lt hc2 hgt) (Nat.le_add_right _ _))).symm

theorem rowHits_zero (data y x idx : Nat) (hx : x < 64) :
    rowHits data y x 0 idx = ((idx == y * 64 + x) && data.testBit 0) := by
  simp [rowHits, List.range_succ, hx]

theorem rowHits_oob (data y x j idx : Nat) (hx : 64 ≤ x) :
    rowHits data y x j idx = false := by
  simp only [rowHits, List.any_eq_false]
  intro t _
  simp only [Bool.and_eq_true, decide_eq_true_eq, beq_iff_eq, not_and]
  intro h
  exact absurd h.1 (Nat.not_lt.mpr (Nat.le_trans hx (Nat.le_add_right x t)))

theorem rowHits_succ (data y x j idx : Nat) (hx : x < 64) :
    rowHits data y x (j + 1) idx
      = (((idx == y * 64 + x) && data.testBit (j + 1)) || rowHits data y (x + 1) j idx) := by
  apply bool_eq_of_iff
  simp only [rowHits, List.any_eq_true, List.mem_range, Bool.and_eq_true,
    decide_eq_true_eq, beq_iff_eq, Bool.or_eq_true]
  constructor
  · rintro ⟨t, ht, ⟨h1, h2⟩, h3⟩
    cases t with
    | zero =>
      left
      constructor
      · simpa using h2
      · simpa using h3
    | succ s =>
      right
      refine ⟨s, Nat.lt_of_succ_lt_succ ht, ⟨?_, ?_⟩, ?_⟩
      · rw [add_rot x s]; exact h1
      · rw [add_rot x s]; exact h2
      · have hjs : j + 1 - (s + 1) = j - s := Nat.succ_sub_succ j s
        rwa [hjs] at h3
  · rintro (⟨h1, h2⟩ | ⟨s, hs, ⟨h1, h2⟩, h3⟩)
    · exact ⟨0, Nat.succ_pos _, ⟨by simpa using hx, by simpa using h1⟩, by simpa using h2⟩
    · refine ⟨s + 1, Nat.succ_lt_succ hs, ⟨?_, ?_⟩, ?_⟩
      · rw [← add_rot x s]; exact h1
      · rw [← add_rot x s]; exact h2
      · have hjs : j + 1 - (s + 1) = j - s := Nat.succ_sub_succ j s
        rw [hjs]; exact h3

theorem rowHits_shape (data y x j idx : Nat) (h : rowHits data y x j idx = true) :
    ∃ c, c < 64 ∧ idx = y * 64 + c := by
  simp only [rowHits, List.any_eq_true, List.mem_range, Bool.and_eq_true,
    decide_eq_true_eq, beq_iff_eq] at h
  obtain ⟨t, _, ⟨h1, h2⟩, _⟩ := h
  exact ⟨x + t, h1, h2⟩

theorem rowHits_start_false (data y x j : Nat) :
    rowHits data y (x + 1) j (y * 64 + x) = false := by
  simp only [rowHits, List.any_eq_false]
  intro t _
  simp only [Bool.and_eq_true, decide_eq_true_eq, beq_iff_eq, not_and]
  intro hab _
  have h2 := Nat.add_left_cancel hab.2
  rw [add_rot x t] at h2
  exact absurd h2 (Nat.ne_of_lt (Nat.lt_add_of_pos_right (Nat.succ_pos t)))

theorem rowHits_other_row_false (data y x j y2 c : Nat) (hne : y2 ≠ y) (hc : c < 64) :
    rowHits data y x j (y2 * 64 + c) = false := by
  cases h : rowHits data y x j (y2 * 64 + c) with
  | false => rfl
  | true =>
    obtain ⟨c2, hc2, heq⟩ := rowHits_shape data y x j _ h
    exact absurd heq (cell_row_ne hc hc2 hne)

theorem rowCollides_zero (data y x : Nat) (disp : Nat → Bool) (hx : x < 64) :
    rowCollides data y x 0 disp = (data.testBit 0 && disp (y * 64 + x)) := by
  simp [rowCollides, List.range_succ, hx]

theorem rowCollides_oob (data y x j : Nat) (disp : Nat → Bool) (hx : 64 ≤ x) :
    rowCollides data y x j disp = false := by
  simp only [rowCollides, List.any_eq_false]
  intro t _
  simp only [Bool.and_eq_true, decide_eq_true_eq, not_and]
  intro h
  exact absurd h.1 (Nat.not_lt.mpr (Nat.le_trans hx (Nat.le_add_right x t)))

theorem rowCollides_succ (data y x j : Nat) (disp : Nat → Bool) (hx : x < 64) :
    rowCollides data y x (j + 1) disp
      = ((data.testBit (j + 1) && disp (y * 64 + x)) || rowCollides data y (x + 1) j disp) := by
  apply bool_eq_of_iff
  simp only [rowCollides, List.any_eq_true, List.mem_range, Bool.and_eq_true,
    decide_eq_true_eq, Bool.or_eq_true]
  constructor
  · rintro ⟨t, ht, ⟨h1, h2⟩, h3⟩
    cases t with
    | zero =>
      left
      constructor
      · simpa using h2
      · simpa using h3
    | succ s =>
      right
      refine ⟨s, Nat.lt_of_succ_lt_succ ht, ⟨?_, ?_⟩, ?_⟩
      · rw [add_rot x s]; exact h1
      · have hjs : j + 1 - (s + 1) = j - s := Nat.succ_sub_succ j s
        rwa [hjs] at h2
      · rw [add_rot x s]; exact h3
  · rintro (⟨h1, h2⟩ | ⟨s, hs, ⟨h1, h2⟩, h3⟩)
    · exact ⟨0, Nat.succ_pos _, ⟨by simpa using hx, by simpa using h1⟩, by simpa using h2⟩
    · refine ⟨s + 1, Nat.succ_lt_succ hs, ⟨?_, ?_⟩, ?_⟩
      · rw [← add_rot x s]; exact h1
      · have hjs : j + 1 - (s + 1) = j - s := Nat.succ_sub_succ j s
        rw [hjs]; exact h2
      · rw [← add_rot x s]; exact h3

theorem rowCollides_congr (data y x j : Nat) (d1 d2 : Nat → Bool)
    (h : ∀ c, x ≤ c → c < 64 → d1 (y * 64 + c) = d2 (y * 64 + c)) :
    rowCollides data y x j d1 = rowCollides data y x j d2 := by
  apply bool_eq_of_iff
  simp only [rowCollides, List.any_eq_true, List.mem_range, Bool.and_eq_true,
    decide_eq_true_eq]
  constructor
  · rintro ⟨t, ht, ⟨h1, h2⟩, h3⟩
    exact ⟨t, ht, ⟨h1, h2⟩, by rwa [← h (x + t) (Nat.le_add_right x t) h1]⟩
  · rintro ⟨t, ht, ⟨h1, h2⟩, h3⟩
    exact ⟨t, ht, ⟨h1, h2⟩, by rwa [h (x + t) (Nat.le_add_right x t) h1]⟩

theorem spriteHitsFrom_succ (ram : Nat → Nat) (I x0 r rowIdx y idx : Nat) (hy : y < 32) :
    spriteHitsFrom ram I x0 (r + 1) rowIdx y idx
      = (rowHits (ram (I + rowIdx)) y x0 7 idx
          || spriteHitsFrom ram I x0 r (rowIdx + 1) (y + 1) idx) := by
  apply bool_eq_of_iff
  simp only [spriteHitsFrom, List.any_eq_true, List.mem_range, Bool.and_eq_true,
    decide_eq_true_eq, Bool.or_eq_true]
  constructor
  · rintro ⟨t, ht, h1, h2⟩
    cases t with
    | zero => left; simpa using h2
    | succ s =>
      right
      refine ⟨s, Nat.lt_of_succ_lt_succ ht, ?_, ?_⟩
      · rw [add_rot y s]; exact h1
      · have e1 : rowIdx + (s + 1) = rowIdx + 1 + s := (add_rot rowIdx s).symm
        have e2 : y + (s + 1) = y + 1 + s := (add_rot y s).symm
        rwa [e1, e2] at h2
  · rintro (h | ⟨s, hs, h1, h2⟩)
    · exact ⟨0, Nat.succ_pos _, by simpa using hy, by simpa using h⟩
    · refine ⟨s + 1, Nat.succ_lt_succ hs, ?_, ?_⟩
      · rw [← add_rot y s]; exact h1
      · have e1 : rowIdx + (s + 1) = rowIdx + 1 + s := (add_rot rowIdx s).symm
        have e2 : y + (s + 1) = y + 1 + s := (add_rot y s).symm
        rw [e1, e2]; exact h2

theorem spriteHitsFrom_oob (ram : Nat → Nat) (I x0 r rowIdx y idx : Nat) (hy : 32 ≤ y) :
    spriteHitsFrom ram I x0 r rowIdx y idx = false := by
  simp only [spriteHitsFrom, List.any_eq_false]
  intro t _
  simp only [Bool.and_eq_true, decide_eq_true_eq, not_and]
  intro h
  exact absurd h (Nat.not_lt.mpr (Nat.le_trans hy (Nat.le_add_right y t)))

theorem spriteHitsFrom_other_rows_false (ram : Nat → Nat) (I x0 r rowIdx y y2 c : Nat)
    (hc : c < 64) (hlt : y2 < y) :
    spriteHitsFrom ram I x0 r rowIdx y (y2 * 64 + c) = false := by
  simp only [spriteHitsFrom, List.any_eq_false]
  intro t _
  simp only [Bool.and_eq_true, decide_eq_true_eq, not_and]
  intro _
  rw [rowHits_other_row_false (ram (I + (rowIdx + t))) (y + t) x0 7 y2 c
    (Nat.ne_of_lt (Nat.lt_of_lt_of_le hlt (Nat.le_add_right y t))) hc]
  simp

theorem spriteCollidesFrom_succ (ram : Nat → Nat) (I x0 r rowIdx y : Nat)
    (disp : Nat → Bool) (hy : y < 32) :
    spriteCollidesFrom ram I x0 (r + 1) rowIdx y disp
      = (rowCollides (ram (I + rowIdx)) y x0 7 disp
          || spriteCollidesFrom ram I x0 r (rowIdx + 1) (y + 1) disp) := by
  apply bool_eq_of_iff
  simp only [spriteCollidesFrom, List.any_eq_true, List.mem_range, Bool.and_eq_true,
    decide_eq_true_eq, Bool.or_eq_true]
  constructor
  · rintro ⟨t, ht, h1, h2⟩
    cases t with
    | zero => left; simpa using h2
    | succ s =>
      right
      refine ⟨s, Nat.lt_of_succ_lt_succ ht, ?_, ?_⟩
      · rw [add_rot y s]; exact h1
      · have e1 : rowIdx + (s + 1) = rowIdx + 1 + s := (add_rot rowIdx s).symm
        have e2 : y + (s + 1) = y + 1 + s := (add_rot y s).symm
        rwa [e1, e2] at h2
  · rintro (h | ⟨s, hs, h1, h2⟩)
    · exact ⟨0, Nat.succ_pos _, by simpa using hy, by simpa using h⟩
    · refine ⟨s + 1, Nat.succ_lt_succ hs, ?_, ?_⟩
      · rw [← add_rot y s]; exact h1
      · have e1 : rowIdx + (s + 1) = rowIdx + 1 + s := (add_rot rowIdx s).symm
        have e2 : y + (s + 1) = y + 1 + s := (add_rot y s).symm
        rw [e1, e2]; exact h2

theorem spriteCollidesFrom_oob (ram : Nat → Nat) (I x0 r rowIdx y : Nat)
    (disp : Nat → Bool) (hy : 32 ≤ y) :
    spriteCollidesFrom ram I x0 r rowIdx y disp = false := by
  simp only [spriteCollidesFrom, List.any_eq_false]
  intro t _
  simp only [Bool.and_eq_true, decide_eq_true_eq, not_and]
  intro h
  exact absurd h (Nat.not_lt.mpr (Nat.le_trans hy (Nat.le_add_right y t)))

theorem spriteCollidesFrom_congr (ram : Nat → Nat) (I x0 r rowIdx y : Nat)
    (d1 d2 : Nat → Bool)
    (h : ∀ y2 c, y ≤ y2 → y2 < 32 → c < 64 → d1 (y2 * 64 + c) = d2 (y2 * 64 + c)) :
    spriteCollidesFrom ram I x0 r rowIdx y d1 = spriteCollidesFrom ram I x0 r rowIdx y d2 := by
  apply bool_eq_of_iff
  simp only [spriteCollidesFrom, List.any_eq_true, List.mem_range, Bool.and_eq_true,
    decide_eq_true_eq]
  constructor
  · rintro ⟨t, ht, h1, h2⟩
    refine ⟨t, ht, h1, ?_⟩
    rwa [rowCollides_congr (ram (I + (rowIdx + t))) (y + t) x0 7 d1 d2
      (fun c _ hc => h (y + t) c (Nat.le_add_right y t) h1 hc)] at h2
  · rintro ⟨t, ht, h1, h2⟩
    refine ⟨t, ht, h1, ?_⟩
    rwa [rowCollides_congr (ram (I + (rowIdx + t))) (y + t) x0 7 d1 d2
      (fun c _ hc => h (y + t) c (Nat.le_add_right y t) h1 hc)]

theorem spriteHits_eq_from (ram : Nat → Nat) (I x0 y0 n idx : Nat) :
    spriteHits ram I x0 y0 n idx = spriteHitsFrom ram I x0 n 0 y0 idx := by
  simp only [spriteHits, spriteHitsFrom, Nat.zero_add]

theorem spriteCollides_eq_from (ram : Nat → Nat) (I x0 y0 n : Nat) (disp : Nat → Bool) :
    spriteCollides ram I x0 y0 n disp = spriteCollidesFrom ram I x0 n 0 y0 disp := by
  simp only [spriteCollides, spriteCollidesFrom, Nat.zero_add]

theorem drawBitsLoop_spec (data y : Nat) :
    ∀ (j x : Nat) (ds : DrawSt), x < 64 →
      ((drawBitsLoop data y j x ds).vf
          = if rowCollides data y x j ds.disp then 1 else ds.vf)
      ∧ ∀ idx, (drawBitsLoop data y j x ds).disp idx
          = Bool.xor (ds.disp idx) (rowHits data y x j idx) := by
  intro j
  induction j with
  | zero =>
    intro x ds hx
    constructor
    · simp only [drawBitsLoop, drawBit, rowCollides_zero data y x ds.disp hx]
    · intro idx
      simp only [drawBitsLoop, drawBit, rowHits_zero data y x idx hx]
      by_cases hidx : idx = y * 64 + x
      · subst hidx
        simp [Function.update_same]
      · have hb : (idx == y * 64 + x) = false := by simp [hidx]
        simp [Function.update_noteq hidx, hb]
  | succ j ih =>
    intro x ds hx
    by_cases h64 : 64 ≤ x + 1
    · constructor
      · simp only [drawBitsLoop]
        rw [if_pos h64]
        simp only [drawBit]
        rw [rowCollides_succ data y x j ds.disp hx,
            rowCollides_oob data y (x + 1) j ds.disp h64]
        simp
      · intro idx
        simp only [drawBitsLoop]
        rw [if_pos h64]
        simp only [drawBit]
        rw [rowHits_succ data y x j idx hx,
            rowHits_oob data y (x + 1) j idx h64]
        by_cases hidx : idx = y * 64 + x
        · subst hidx
          simp [Function.update_same]
        · have hb : (idx == y * 64 + x) = false := by simp [hidx]
          simp [Function.update_noteq hidx, hb]
    · have hx1 : x + 1 < 64 := Nat.lt_of_not_le h64
      have ihs := ih (x + 1) (drawBit data y (j + 1) x ds) hx1
      constructor
      · simp only [drawBitsLoop]
        rw [if_neg h64, ihs.1]
        have hcs : rowCollides data y (x + 1) j (drawBit data y (j + 1) x ds).disp
            = rowCollides data y (x + 1) j ds.disp := by
          apply rowCollides_congr
          intro c hxc hc
          simp only [drawBit]
          rw [Function.update_noteq fun e => absurd (Nat.add_left_cancel e) (Nat.ne_of_gt hxc)]
        rw [hcs]
        simp only [drawBit]
        rw [ite_one_collapse, rowCollides_succ data y x j ds.disp hx]
      · intro idx
        simp only [drawBitsLoop]
        rw [if_neg h64, ihs.2 idx, rowHits_succ data y x j idx hx]
        simp only [drawBit]
        by_cases hidx : idx = y * 64 + x
        · subst hidx
          rw [Function.update_same, rowHits_start_false data y x j]
          simp
        · have hb : (idx == y * 64 + x) = false := by simp [hidx]
          rw [Function.update_noteq hidx, hb]
          simp

theorem drawRowsLoop_spec (ram : Nat → Nat) (I x0 : Nat) (hx : x0 < 64) :
    ∀ (r rowIdx y : Nat) (ds : DrawSt), y < 32 →
      ((drawRowsLoop ram I x0 r rowIdx y ds).vf
          = if spriteCollidesFrom ram I x0 r rowIdx y ds.disp then 1 else ds.vf)
      ∧ ∀ idx, (drawRowsLoop ram I x0 r rowIdx y ds).disp idx
          = Bool.xor (ds.disp idx) (spriteHitsFrom ram I x0 r rowIdx y idx) := by
  intro r
  induction r with
  | zero =>
    intro rowIdx y ds hy
    constructor
    · simp [drawRowsLoop, spriteCollidesFrom]
    · intro idx
      simp [drawRowsLoop, spriteHitsFrom]
  | succ r ih =>
    intro rowIdx y ds hy
    have hbits := drawBitsLoop_spec (ram (I + rowIdx)) y 7 x0 ds hx
    by_cases h32 : 32 ≤ y + 1
    · constructor
      · simp only [drawRowsLoop]
        rw [if_pos h32, hbits.1,
            spriteCollidesFrom_succ ram I x0 r rowIdx y ds.disp hy,
            spriteCollidesFrom_oob ram I x0 r (rowIdx + 1) (y + 1) ds.disp h32]
        simp
      · intro idx
        simp only [drawRowsLoop]
        rw [if_pos h32, hbits.2 idx,
            spriteHitsFrom_succ ram I x0 r rowIdx y idx hy,
            spriteHitsFrom_oob ram I x0 r (rowIdx + 1) (y + 1) idx h32]
        simp
    · have hy1 : y + 1 < 32 := Nat.lt_of_not_le h32
      have ihs := ih (rowIdx + 1) (y + 1) (drawBitsLoop (ram (I + rowIdx)) y 7 x0 ds) hy1
      constructor
      · simp only [drawRowsLoop]
        rw [if_neg h32, ihs.1]
        have hcongr : spriteCollidesFrom ram I x0 r (rowIdx + 1) (y + 1)
              (drawBitsLoop (ram (I + rowIdx)) y 7 x0 ds).disp
            = spriteCollidesFrom ram I x0 r (rowIdx + 1) (y + 1) ds.disp := by
          apply spriteCollidesFrom_congr
          intro y2 c hy2 hy2lt hc
          rw [hbits.2 (y2 * 64 + c),
              rowHits_other_row_false (ram (I + rowIdx)) y x0 7 y2 c (Nat.ne_of_gt hy2) hc]
          simp
        rw [hcongr, hbits.1, ite_one_collapse,
            spriteCollidesFrom_succ ram I x0 r rowIdx y ds.disp hy]
      · intro idx
        simp only [drawRowsLoop]
        rw [if_neg h32, ihs.2 idx, hbits.2 idx,
            spriteHitsFrom_succ ram I x0 r rowIdx y idx hy]
        apply xor_xor_or
        rintro ⟨hb, hc⟩
        obtain ⟨c, hclt, hceq⟩ := rowHits_shape (ram (I + rowIdx)) y x0 7 idx hb
        subst hceq
        rw [spriteHitsFrom_other_rows_false ram I x0 r (rowIdx + 1) (y + 1) y c hclt
          (Nat.lt_succ_self y)] at hc
        exact absurd hc (by simp)

/-- C3: `DXYN` draws from origin `(V[x] mod 64, V[y] mod 32)`: every display
cell is XORed with the sprite coverage bit (`spriteHits`: byte `ram[I+r]` of
row `r < n`, MSB first, clipped at column 63 and row 31), and `VF` ends 1
exactly when some drawn sprite bit lands on a pixel set in the pre-draw
display (`spriteCollides`), having been initialized to 0 first. -/
theorem dxyn_spec (rnd : Nat) (st : Vm) (op : Nat) (hhi : opHi op = 13) :
    ((exec rnd op st).v 15
        = if spriteCollides st.ram st.i (st.v (opX op) % 64) (st.v (opY op) % 32)
            (opN op) st.display then 1 else 0)
    ∧ ∀ idx, (exec rnd op st).display idx
        = Bool.xor (st.display idx)
            (spriteHits st.ram st.i (st.v (opX op) % 64) (st.v (opY op) % 32)
              (opN op) idx) := by
  have hx : st.v (opX op) % 64 < 64 := Nat.mod_lt _ (by decide)
  have hy : st.v (opY op) % 32 < 32 := Nat.mod_lt _ (by decide)
  have hmain := drawRowsLoop_spec st.ram st.i (st.v (opX op) % 64) hx (opN op) 0
      (st.v (opY op) % 32) ⟨st.display, 0, []⟩ hy
  constructor
  · rw [exec_hiD rnd op st hhi]
    simp only [execD]
    norm_num
    rw [hmain.1, spriteCollides_eq_from]
  · intro idx
    rw [exec_hiD rnd op st hhi]
    simp only [execD]
    rw [hmain.2 idx, spriteHits_eq_from]

theorem drawBitsLoop_trace (data y : Nat) :
    ∀ (j x : Nat) (ds : DrawSt), x < 64 → y < 32 →
      ∀ c ∈ (drawBitsLoop data y j x ds).trace, c ∈ ds.trace ∨ c < 2048 := by
  intro j
  induction j with
  | zero =>
    intro x ds hx hy c hc
    simp only [drawBitsLoop, drawBit, List.mem_append, List.mem_singleton] at hc
    rcases hc with hc | hc
    · exact Or.inl hc
    · right; subst hc; exact cell_lt_2048 hy hx
  | succ j ih =>
    intro x ds hx hy c hc
    by_cases h64 : 64 ≤ x + 1
    · rw [show drawBitsLoop data y (j + 1) x ds = drawBit data y (j + 1) x ds by
        simp only [drawBitsLoop]; rw [if_pos h64]] at hc
      simp only [drawBit, List.mem_append, List.mem_singleton] at hc
      rcases hc with hc | hc
      · exact Or.inl hc
      · right; subst hc; exact cell_lt_2048 hy hx
    · rw [show drawBitsLoop data y (j + 1) x ds
          = drawBitsLoop data y j (x + 1) (drawBit data y (j + 1) x ds) by
        simp only [drawBitsLoop]; rw [if_neg h64]] at hc
      rcases ih (x + 1) (drawBit data y (j + 1) x ds) (Nat.lt_of_not_le h64) hy c hc with h | h
      · simp only [drawBit, List.mem_append, List.mem_singleton] at h
        rcases h with h | h
        · exact Or.inl h
        · right; subst h; exact cell_lt_2048 hy hx
      · exact Or.inr h

theorem drawRowsLoop_trace (ram : Nat → Nat) (I x0 : Nat) (hx : x0 < 64) :
    ∀ (r rowIdx y : Nat) (ds : DrawSt), y < 32 →
      ∀ c ∈ (drawRowsLoop ram I x0 r rowIdx y ds).trace, c ∈ ds.trace ∨ c < 2048 := by
  intro r
  induction r with
  | zero =>
    intro rowIdx y ds hy c hc
    exact Or.inl hc
  | succ r ih =>
    intro rowIdx y ds hy c hc
    by_cases h32 : 32 ≤ y + 1
    · rw [show drawRowsLoop ram I x0 (r + 1) rowIdx y ds
          = drawBitsLoop (ram (I + rowIdx)) y 7 x0 ds by
        simp only [drawRowsLoop]; rw [if_pos h32]] at hc
      exact drawBitsLoop_trace (ram (I + rowIdx)) y 7 x0 ds hx hy c hc
    · rw [show drawRowsLoop ram I x0 (r + 1) rowIdx y ds
          = drawRowsLoop ram I x0 r (rowIdx + 1) (y + 1)
              (drawBitsLoop (ram (I + rowIdx)) y 7 x0 ds) by
        simp only [drawRowsLoop]; rw [if_neg h32]] at hc
      rcases ih (rowIdx + 1) (y + 1) (drawBitsLoop (ram (I + rowIdx)) y 7 x0 ds)
          (Nat.lt_of_not_le h32) c hc with h | h
      · exact drawBitsLoop_trace (ram (I + rowIdx)) y 7 x0 ds hx hy c h
      · exact Or.inr h

/-- C8: every display index read or written by the `DXYN` draw loops (as
recorded in the ghost access trace, for the exact arguments `exec` passes)
lies in `[0, 2048)`, because the origin is taken mod 64/32 and the loops clip
at both screen edges; and the `00E0` clear writes only indices below 2048
(cells at index ≥ 2048 are untouched). -/
theorem display_access_in_bounds (rnd : Nat) (st : Vm) (op : Nat) (_hhi : opHi op = 13) :
    (∀ c ∈ (drawRowsLoop st.ram st.i (st.v (opX op) % 64) (opN op) 0
        (st.v (opY op) % 32) ⟨st.display, 0, []⟩).trace, c < 2048)
    ∧ ∀ idx, 2048 ≤ idx → (exec rnd 0x00E0 st).display idx = st.display idx := by
  constructor
  · intro c hc
    have hx : st.v (opX op) % 64 < 64 := Nat.mod_lt _ (by decide)
    have hy : st.v (opY op) % 32 < 32 := Nat.mod_lt _ (by decide)
    rcases drawRowsLoop_trace st.ram st.i (st.v (opX op) % 64) hx (opN op) 0
        (st.v (opY op) % 32) ⟨st.display, 0, []⟩ hy c hc with h | h
    · simp at h
    · exact h
  · intro idx hidx
    have hlt : ¬ idx < 2048 := Nat.not_lt.mpr hidx
    simp [exec, exec0, opHi, opNn, hlt]

theorem dxyn_spec_witness :
    ((exec 0 0xD011 drawVm).v 15
        = if spriteCollides drawVm.ram drawVm.i (drawVm.v (opX 0xD011) % 64)
            (drawVm.v (opY 0xD011) % 32) (opN 0xD011) drawVm.display then 1 else 0)
    ∧ (exec 0 0xD011 drawVm).display 0
        = Bool.xor (drawVm.display 0)
            (spriteHits drawVm.ram drawVm.i (drawVm.v (opX 0xD011) % 64)
              (drawVm.v (opY 0xD011) % 32) (opN 0xD011) 0) :=
  ⟨(dxyn_spec 0 drawVm 0xD011 rfl).1, (dxyn_spec 0 drawVm 0xD011 rfl).2 0⟩

theorem display_access_in_bounds_witness :
    (63 : Nat) < 2048
    ∧ (exec 0 0x00E0 edgeVm).display 3000 = edgeVm.display 3000 :=
  ⟨(display_access_in_bounds 0 edgeVm 0xD011 rfl).1 63 (by decide),
   (display_access_in_bounds 0 edgeVm 0xD011 rfl).2 3000 (by decide)⟩

end Chip8
